import Mathlib

/-
Verification development for the mention-driven NFT mint orchestrator
(cdp-langchain/examples/chatbot-python/chatbot.py plus the twitter action
helpers).  The Python program is shallowly embedded: pure computations are
translated directly, external services (wallet, block explorer, balance and
reputation queries, ENS resolution, media conversion and upload, the
language-model reply executor, eth_utils.is_address) are modelled as oracle
fields of an `Env` record, and Python exceptions are modelled with an explicit
error type.  Local variables that may be referenced before assignment are
modelled so that such a reference produces `PyErr.unboundLocal`, mirroring
Python's UnboundLocalError.
-/

namespace Xonin

/-- Python exception kinds that the embedded code can raise. -/
inductive PyErr where
  | attributeError
  | unboundLocal
  | valueError
  | systemExit
deriving DecidableEq

/-- Configured admin account id (chatbot.py line 42). -/
def ADMIN_ID : String := "1340039893595074560"

/-- Configured admin handle (chatbot.py line 43). -/
def ADMIN_NAME : String := "DukeOphir"

/-- Reputation admission threshold (chatbot.py line 49). -/
def REPUTATION_THRESHOLD : Int := 20

/-- Python string truthiness on optional strings: `None` and `""` are falsy.
Used for the `if value:` guards in `add_mention`. -/
def truthyStr (o : Option String) : Option String :=
  match o with
  | some s => if s = "" then none else some s
  | none => none

/-- ASCII lower-casing, modelling `str.lower()` on addresses. -/
def lowerStr (s : String) : String :=
  String.mk (s.toList.map Char.toLower)

/-- Hexadecimal digit test for the regex class `[a-fA-F0-9]`. -/
def isHexChar (c : Char) : Bool :=
  ('0' ≤ c && c ≤ '9') || ('a' ≤ c && c ≤ 'f') || ('A' ≤ c && c ≤ 'F')

/-- Regex `\w` (word character), ASCII fragment. -/
def isWordChar (c : Char) : Bool :=
  c.isAlphanum || c = '_'

/-- Regex `\s` (whitespace character). -/
def isSpaceC (c : Char) : Bool :=
  c = ' ' || c = '\t' || c = '\n' || c = '\r' || c = '\x0b' || c = '\x0c'

/-- Value of one hex digit. -/
def hexVal (c : Char) : Nat :=
  if '0' ≤ c && c ≤ '9' then c.toNat - '0'.toNat
  else if 'a' ≤ c && c ≤ 'f' then c.toNat - 'a'.toNat + 10
  else c.toNat - 'A'.toNat + 10

/-- Fold hex digits into a number; `none` on a non-hex character. -/
def parseHexDigits : List Char → Nat → Option Nat
  | [], acc => some acc
  | c :: rest, acc =>
    if isHexChar c then parseHexDigits rest (acc * 16 + hexVal c) else none

/-- Python `int(s, 16)` on the strings the explorer returns: an optional
`0x`/`0X` marker followed by a nonempty run of hex digits. -/
def parseHex16 (s : String) : Option Nat :=
  let cs :=
    match s.toList with
    | '0' :: 'x' :: rest => rest
    | '0' :: 'X' :: rest => rest
    | cs => cs
  match cs with
  | [] => none
  | _ => parseHexDigits cs 0

/-- Fold decimal digits into a number; `none` on a non-digit character. -/
def parseDecDigits : List Char → Nat → Option Nat
  | [], acc => some acc
  | c :: rest, acc =>
    if c.isDigit then parseDecDigits rest (acc * 10 + (c.toNat - '0'.toNat)) else none

/-- Python `int(s)` on tweet ids: a nonempty run of decimal digits. -/
def parseDecNat (s : String) : Option Nat :=
  match s.toList with
  | [] => none
  | cs => parseDecDigits cs 0

/-- Author record stored inside a ledger entry
(`{"username": author, "id": author_id}`). -/
structure Author where
  username : String
  id : String
deriving DecidableEq

/-- One ledger entry of `MentionMemory` (`mention_data` in `add_mention`).
The wall-clock `processed_at` field is omitted: it is an external clock read
with no influence on control flow. -/
structure MentionData where
  text : List String
  status : String
  mint_success : Bool
  tweet_success : Bool
  author : Option Author
  transaction_hash : Option String
  minted_address : Option String
  minted_domain : Option String
  minted_nft_name : Option String
  reply_id : Option String
deriving DecidableEq

/-- The persisted state: `{"mentions": {...}, "last_tweet_id": ...}`.
The Python dict is insertion-ordered, modelled as an association list. -/
structure Memory where
  mentions : List (String × MentionData)
  last_tweet_id : Option String
deriving DecidableEq

/-- Python dict assignment `d[k] = v`: replace in place if the key exists,
append otherwise. -/
def upsert : List (String × MentionData) → String → MentionData → List (String × MentionData)
  | [], k, v => [(k, v)]
  | (k', v') :: rest, k, v =>
    if k' = k then (k, v) :: rest else (k', v') :: upsert rest k v

/-- First value stored under a key, if any. -/
def lookupMention : List (String × MentionData) → String → Option MentionData
  | [], _ => none
  | (k, v) :: rest, tid => if k = tid then some v else lookupMention rest tid

/-- Model of `MentionMemory.is_processed` (chatbot.py lines 108-110). -/
def Memory.is_processed (m : Memory) (tweet_id : String) : Bool :=
  m.mentions.any (fun p => p.1 == tweet_id)

/-- The entry built by `add_mention` (chatbot.py lines 112-139), with the
Python truthiness guards on each optional field. -/
def mkMention (tweet_text : List String) (status : String) (mint_success : Bool)
    (tx_hash minted_address minted_domain minted_nft_name author author_id reply_id : Option String) :
    MentionData :=
  { text := tweet_text
    status := status
    mint_success := mint_success
    tweet_success := (truthyStr reply_id).isSome
    author :=
      match truthyStr author, truthyStr author_id with
      | some u, some i => some { username := u, id := i }
      | _, _ => none
    transaction_hash := truthyStr tx_hash
    minted_address := truthyStr minted_address
    minted_domain := truthyStr minted_domain
    minted_nft_name := truthyStr minted_nft_name
    reply_id := truthyStr reply_id }

/-- Model of `MentionMemory.add_mention`: not_mint_request mentions are never saved;
everything else is stored under the tweet id. -/
def Memory.add_mention (m : Memory) (tweet_id : String) (tweet_text : List String) (status : String)
    (mint_success : Bool)
    (tx_hash minted_address minted_domain minted_nft_name author author_id reply_id : Option String) :
    Memory :=
  if status = "not_mint_request" then m
  else
    { mentions := upsert m.mentions tweet_id
        (mkMention tweet_text status mint_success tx_hash minted_address minted_domain
          minted_nft_name author author_id reply_id)
      last_tweet_id := m.last_tweet_id }

/-- The comparison `author.get("id") == author_id` inside `has_successful_mint`: comparing the
stored id against a possibly missing `author_id` (None never equals a string). -/
def authorIdEq (a : Author) (author_id : Option String) : Bool :=
  match author_id with
  | some aid => a.id == aid
  | none => false

/-- The address clause of `has_successful_mint`:
`address and mention.get("minted_address", "").lower() == address.lower()`. -/
def addrEq (m : MentionData) (address : Option String) : Bool :=
  match address with
  | some ad => (ad != "") && (lowerStr (m.minted_address.getD "") == lowerStr ad)
  | none => false

/-- The scan of `has_successful_mint` (chatbot.py lines 141-150).  For a
successful entry the code evaluates `mention.get("author", {}).get("id")`; when
the stored author is `None` (the key is present with value None, so the `{}`
default is not used) this raises AttributeError. -/
def hsmScan (author_id : Option String) (address : Option String) :
    List (String × MentionData) → Except PyErr (Option String)
  | [] => .ok none
  | (tid, mention) :: rest =>
    if mention.mint_success then
      match mention.author with
      | none => .error .attributeError
      | some a =>
        if authorIdEq a author_id || addrEq mention address then .ok (some tid)
        else hsmScan author_id address rest
    else hsmScan author_id address rest

/-- Model of `MentionMemory.has_successful_mint`. -/
def Memory.has_successful_mint (m : Memory) (author_id : Option String) (address : Option String) :
    Except PyErr (Option String) :=
  hsmScan author_id address m.mentions

/-- Maximum of a list of naturals (Python `max` on a nonempty list; 0 for []). -/
def listMax : List Nat → Nat
  | [] => 0
  | n :: rest => rest.foldl Nat.max n

/-- A fetched tweet as the pipeline sees it: id, whitespace-split text, and the
author fields merged in by `get_all_mentions` (both may be absent). -/
structure Tweet where
  id : String
  text : List String
  author_username : Option String
  author_id : Option String
deriving DecidableEq

/-- Parsing `int(tweet["id"])` over a batch: all ids parsed, or None when any fails
(the generator inside `max(...)` raises on the first bad id). -/
def mapParseIds : List Tweet → Option (List Nat)
  | [] => some []
  | t :: ts =>
    match parseDecNat t.id, mapParseIds ts with
    | some n, some ns => some (n :: ns)
    | _, _ => none

/-- Model of `MentionMemory.update_last_tweet_id` (chatbot.py lines 98-106): on a
nonempty batch, take the numeric maximum of the tweet ids and store it when the
current checkpoint is falsy or strictly smaller.  `int(...)` on a non-numeric
string raises ValueError. -/
def Memory.update_last_tweet_id (m : Memory) (tweets : List Tweet) : Except PyErr Memory :=
  match tweets with
  | [] => .ok m
  | _ =>
    match mapParseIds tweets with
    | none => .error .valueError
    | some ids =>
      match m.last_tweet_id with
      | none => .ok { mentions := m.mentions, last_tweet_id := some (toString (listMax ids)) }
      | some s =>
        if s = "" then .ok { mentions := m.mentions, last_tweet_id := some (toString (listMax ids)) }
        else
          match parseDecNat s with
          | none => .error .valueError
          | some old =>
            if listMax ids > old then
              .ok { mentions := m.mentions, last_tweet_id := some (toString (listMax ids)) }
            else .ok m

/-- Result of `w3.ens.address` as seen through `resolve_ens`: the call can
return an address, return None (no record), or raise. -/
inductive EnsResult where
  | found (a : String)
  | notFound
  | exception
deriving DecidableEq

/-- Reputation object returned by the CDP SDK; only `score` drives control
flow (the metadata is used solely for reply wording). -/
structure Reputation where
  score : Int
deriving DecidableEq

/-- One log entry of a transaction receipt. -/
structure LogEntry where
  address : String
  topics : List String
deriving DecidableEq

/-- One block-explorer answer for `eth_getTransactionReceipt`: either no
truthy `result` field, or a receipt with an optional `status` string and logs. -/
inductive ReceiptResp where
  | absent
  | present (status : Option String) (logs : List LogEntry)
deriving DecidableEq

/-- The external world.  Each field is one out-of-scope service the pipeline
calls; per-attempt oracles take the attempt index. -/
structure Env where
  isAddress : String → Bool
  resolveEns : String → EnsResult
  getEthBalance : String → Option ℚ
  reputationAttempt : String → Nat → Option Reputation
  txReceipt : String → Nat → ReceiptResp
  mintNft : String → Option String
  tokenUriSvg : String → Nat → Option (String × String)
  svgToPng : String → Nat → String → Option String
  mediaUpload : String → Option String
  replySuccessParse : String → Option String
  sendErrorReply : String → String → Option String

/-- Model of `resolve_ens` (chatbot.py lines 190-199): returns `(address, domain)` on
success, `(None, domain)` when the resolver finds no record, `(None, None)`
when the call raises (the exception is caught inside). -/
def resolve_ens (env : Env) (domain : String) : Option String × Option String :=
  match env.resolveEns domain with
  | .found a => (some a, some domain)
  | .notFound => (none, some domain)
  | .exception => (none, none)

/-- Model of `get_eth_balance` (chatbot.py lines 154-169): any exception is caught and
turned into None, modelled directly by the oracle. -/
def get_eth_balance (env : Env) (address : String) : Option ℚ :=
  env.getEthBalance address

/-- The retry loop of `check_reputation`: attempts indexed from 0, `rem`
attempts remaining. -/
def checkRepLoop (env : Env) (address : String) : Nat → Nat → Option Reputation
  | _, 0 => none
  | i, rem + 1 =>
    match env.reputationAttempt address i with
    | some r => some r
    | none => checkRepLoop env address (i + 1) rem

/-- Model of `check_reputation` (chatbot.py lines 171-188): `max_retries = 2`, so
`range(max_retries + 1)` gives three attempts; None after the last failure. -/
def check_reputation (env : Env) (address : String) : Option Reputation :=
  checkRepLoop env address 0 3

/-- Does `p` begin the list `s`? -/
def beginsWith : List Char → List Char → Bool
  | [], _ => true
  | _ :: _, [] => false
  | a :: as, b :: bs => (a == b) && beginsWith as bs

/-- Python `needle in haystack` on strings, over character lists. -/
def occurs (needle : List Char) : List Char → Bool
  | [] => beginsWith needle []
  | c :: rest => beginsWith needle (c :: rest) || occurs needle rest

/-- Match of the regex `0x[a-fA-F0-9]{40}` anchored at the head of `s`. -/
def hexAt : List Char → Option (List Char)
  | '0' :: 'x' :: rest =>
    if (rest.take 40).length = 40 ∧ (rest.take 40).all isHexChar = true then
      some ('0' :: 'x' :: rest.take 40)
    else none
  | _ => none

/-- Scan for the leftmost `0x[a-fA-F0-9]{40}` match, returning its start
position and matched text (the semantics of `re.search`). -/
def searchHexFrom : List Char → Nat → Option (Nat × List Char)
  | [], _ => none
  | c :: rest, i =>
    match hexAt (c :: rest) with
    | some m => some (i, m)
    | none => searchHexFrom rest (i + 1)

/-- Leftmost match of the ETH-address pattern. -/
def searchHex (s : List Char) : Option (Nat × List Char) :=
  searchHexFrom s 0

/-- Can the regex `\S+\.eth\b` match at the head of `s` with a `\S+` group of
length exactly `j`? -/
def ethAtJ (s : List Char) (j : Nat) : Bool :=
  decide (1 ≤ j) && (s.take j).all (fun c => ! isSpaceC c) &&
    ((s.drop j).take 4 == ['.', 'e', 't', 'h']) &&
    (match (s.drop (j + 4)).head? with
     | none => true
     | some c => ! isWordChar c)

/-- Match of `\S+\.eth\b` anchored at the head of `s`; the greedy `\S+` takes
the largest feasible length. -/
def ethAt (s : List Char) : Option (List Char) :=
  match (List.range (s.length + 1)).reverse.find? (fun j => ethAtJ s j) with
  | some j => some (s.take (j + 4))
  | none => none

/-- Scan for the leftmost `\S+\.eth\b` match with its start position. -/
def searchEthFrom : List Char → Nat → Option (Nat × List Char)
  | [], _ => none
  | c :: rest, i =>
    match ethAt (c :: rest) with
    | some m => some (i, m)
    | none => searchEthFrom rest (i + 1)

/-- Leftmost match of the `.eth` domain pattern. -/
def searchEth (s : List Char) : Option (Nat × List Char) :=
  searchEthFrom s 0

/-- Python `word.startswith('@')`: the first character is '@'. -/
def startsWithAt (w : String) : Bool :=
  match w.toList with
  | '@' :: _ => true
  | _ => false

/-- The join `' '.join(words)` as a character list. -/
def joinWords : List String → List Char
  | [] => []
  | [w] => w.toList
  | w :: rest => w.toList ++ ' ' :: joinWords rest

/-- Fuel-based scanner for `re.finditer(r'@(\w+)', message)`: each step
consumes at least one character, so fuel equal to the text length suffices;
the fuel only discharges termination and never runs out on the initial call. -/
def findTaggedAux : Nat → List Char → Option String
  | 0, _ => none
  | _ + 1, [] => none
  | fuel + 1, c :: rest =>
    if c = '@' then
      if (rest.takeWhile isWordChar) = [] then findTaggedAux fuel rest
      else if String.mk (rest.takeWhile isWordChar) = "XoninNFT" then
        findTaggedAux fuel (rest.drop (rest.takeWhile isWordChar).length)
      else some (String.mk (rest.takeWhile isWordChar))
    else findTaggedAux fuel rest

/-- First `@(\w+)` match whose group is not "XoninNFT" (chatbot.py lines
442-447): leftmost non-overlapping matches, skipping self-mentions. -/
def findTagged (s : List Char) : Option String :=
  findTaggedAux s.length s

/-- Shared tail of the extraction loop body (chatbot.py lines 457-475): the
matched literal is resolved when it contains ".eth", then format-validated. -/
def handleLiteral (env : Env) (lit : String) (tagged_user : Option String) :
    Option String × Option String × Option String × Option String :=
  if occurs ['.', 'e', 't', 'h'] lit.toList then
    match resolve_ens env lit with
    | (none, domain) => (some lit, domain, some "invalid_address", tagged_user)
    | (some resolved, domain) =>
      if env.isAddress resolved then (some resolved, domain, some "valid", tagged_user)
      else (some resolved, domain, some "invalid_address", tagged_user)
  else
    if env.isAddress lit then (some lit, none, some "valid", tagged_user)
    else (some lit, none, some "invalid_address", tagged_user)

/-- Model of `is_valid_mint_request_with_feedback` (chatbot.py lines 424-477) over the
whitespace-split words of the tweet text.  All leading words starting with '@'
are dropped; the remainder is rejoined with single spaces; the first
non-XoninNFT handle is the tagged user; the 0x-address pattern is searched
before the `.eth` pattern. -/
def is_valid_mint_request_with_feedback (env : Env) (tweet_text : List String) :
    Option String × Option String × Option String × Option String :=
  let messageWords := tweet_text.dropWhile (fun w => startsWithAt w)
  let actual_message := joinWords messageWords
  let tagged_user := findTagged actual_message
  match searchHex actual_message with
  | some (_, lit) => handleLiteral env (String.mk lit) tagged_user
  | none =>
    match searchEth actual_message with
    | some (_, lit) => handleLiteral env (String.mk lit) tagged_user
    | none => (none, none, none, tagged_user)

/-- Result of `get_transaction_data`, instrumented with the number of polls
actually performed. -/
structure GtdOut where
  tokenId : Option Nat
  contractAddress : Option String
  confirmed : Bool
  attempts : Nat
deriving DecidableEq

/-- The polling loop of `get_transaction_data` (chatbot.py lines 201-238):
attempt index `i`, `rem` attempts remaining.  A truthy `result` with status 0
stops immediately with failure; a successful status with a parseable fourth
topic in the last log stops with success; anything else retries; exhausting
the attempts reports failure.  `int(status, 16)` on a malformed status raises
(it sits outside the inner try). -/
def gtdLoop (f : Nat → ReceiptResp) : Nat → Nat → Except PyErr GtdOut
  | i, 0 => .ok { tokenId := none, contractAddress := none, confirmed := false, attempts := i }
  | i, rem + 1 =>
    match f i with
    | .absent => gtdLoop f (i + 1) rem
    | .present st logs =>
      match parseHex16 (st.getD "0") with
      | none => .error .valueError
      | some status =>
        if status = 0 then
          .ok { tokenId := none, contractAddress := none, confirmed := false, attempts := i + 1 }
        else
          match logs.getLast? with
          | none => gtdLoop f (i + 1) rem
          | some lastLog =>
            if lastLog.topics.isEmpty = false ∧ 4 ≤ lastLog.topics.length then
              match parseHex16 (lastLog.topics.getD 3 "") with
              | some v =>
                .ok { tokenId := some v, contractAddress := some lastLog.address,
                      confirmed := true, attempts := i + 1 }
              | none => gtdLoop f (i + 1) rem
            else gtdLoop f (i + 1) rem

/-- Model of `get_transaction_data` with its default `max_retries = 4`, as called from
`process_mint_request`. -/
def get_transaction_data (f : Nat → ReceiptResp) : Except PyErr GtdOut :=
  gtdLoop f 0 4

/-- The tuple returned by `process_mint_request`: the three failure returns
(lines 508, 512, 518) have three components, the success return (line 603)
has four.  The caller unpacks four, so a `three` value raises ValueError
there. -/
inductive MintReturn where
  | three (mint_success : Bool) (txHash : String) (reply_id : Option String)
  | four (mint_success : Bool) (txHash : String) (reply_id : Option String) (name : String)
deriving DecidableEq

deriving instance DecidableEq for Except

/-- Outcome of `process_mint_request`, instrumented with whether the reply
stream was reached (a reply attempt). -/
structure PmrOut where
  ret : Except PyErr MintReturn
  replyAttempted : Bool
deriving DecidableEq

/-- Model of `process_mint_request` (chatbot.py lines 479-603).  The wallet is invoked
once; a mint response without a transaction hash raises ValueError (line 491).
After a confirmed receipt the token metadata is read; then the SVG is
converted and uploaded.  `media_id` is assigned only when both conversion and
upload succeed, yet line 576 reads it unconditionally, so the unassigned case
raises UnboundLocalError.  `reply_id` is assigned only when some streamed tool
response parses to an id, yet line 603 reads it, with the same failure mode.
When `reply_id` was assigned it is a parsed id, so `reply_id != None` is true. -/
def process_mint_request (env : Env) (tweet_id : String) (eth_address : String) : PmrOut :=
  match env.mintNft eth_address with
  | none => { ret := .error .valueError, replyAttempted := false }
  | some txHash =>
    match get_transaction_data (env.txReceipt txHash) with
    | .error e => { ret := .error e, replyAttempted := false }
    | .ok g =>
      if g.confirmed = false then
        { ret := .ok (.three false txHash none), replyAttempted := false }
      else
        match g.tokenId, g.contractAddress with
        | some token_id, some contract_address =>
          (match env.tokenUriSvg contract_address token_id with
           | none => { ret := .ok (.three false txHash none), replyAttempted := false }
           | some (name, svg_data) =>
             if name = "" ∨ svg_data = "" then
               { ret := .ok (.three false txHash none), replyAttempted := false }
             else
               let png_file := env.svgToPng contract_address token_id svg_data
               let media_id : Option String :=
                 match png_file with
                 | none => none
                 | some p => env.mediaUpload p
               match media_id with
               | none => { ret := .error .unboundLocal, replyAttempted := false }
               | some _ =>
                 match env.replySuccessParse tweet_id with
                 | none => { ret := .error .unboundLocal, replyAttempted := true }
                 | some reply_id =>
                   { ret := .ok (.four true txHash (some reply_id) name), replyAttempted := true })
        | _, _ => { ret := .ok (.three false txHash none), replyAttempted := false }

/-- Outcome of `process_tweet`, instrumented with whether the wallet mint was
invoked and how many reply attempts were made. -/
structure PTOut where
  ret : Except PyErr Bool
  mem : Memory
  mintInvoked : Bool
  replies : Nat
deriving DecidableEq

/-- The shared tail of `process_tweet` after the duplicate check (chatbot.py
lines 786-816): call `process_mint_request` inside try/except.  A four-tuple
return records a `processed` entry; a three-tuple return raises ValueError at
the unpacking on line 789, which the except clause turns into an `error`
entry, exactly as it does for exceptions raised inside
`process_mint_request`. -/
def mintBranch (env : Env) (tweet : Tweet) (mem : Memory) (address : String)
    (domain : Option String) : PTOut :=
  match (process_mint_request env tweet.id address).ret with
  | .ok (.four mint_success tx_hash reply_id name) =>
    { ret := .ok true
      mem := mem.add_mention tweet.id tweet.text "processed" mint_success (some tx_hash)
        (some address) domain (some name) tweet.author_username tweet.author_id reply_id
      mintInvoked := true
      replies := if (process_mint_request env tweet.id address).replyAttempted then 1 else 0 }
  | .ok (.three _ _ _) =>
    { ret := .ok false
      mem := mem.add_mention tweet.id tweet.text "error" false none (some address) domain none
        tweet.author_username tweet.author_id none
      mintInvoked := true
      replies := if (process_mint_request env tweet.id address).replyAttempted then 1 else 0 }
  | .error _ =>
    { ret := .ok false
      mem := mem.add_mention tweet.id tweet.text "error" false none (some address) domain none
        tweet.author_username tweet.author_id none
      mintInvoked := true
      replies := if (process_mint_request env tweet.id address).replyAttempted then 1 else 0 }

/-- Model of `process_tweet` (chatbot.py lines 687-816). -/
def process_tweet (env : Env) (tweet : Tweet) (mem : Memory) : PTOut :=
  if tweet.text = [] ∨ tweet.id = "" then { ret := .ok false, mem := mem, mintInvoked := false, replies := 0 }
  else if mem.is_processed tweet.id then { ret := .ok false, mem := mem, mintInvoked := false, replies := 0 }
  else
    match is_valid_mint_request_with_feedback env tweet.text with
    | (none, _, _, _) => { ret := .ok false, mem := mem, mintInvoked := false, replies := 0 }
    | (some address, domain, status, _tagged_user) =>
      if status = some "invalid_address" then
        { ret := .ok true
          mem := mem.add_mention tweet.id tweet.text "invalid_address" false none (some address)
            domain none tweet.author_username tweet.author_id (env.sendErrorReply tweet.id "invalid_address")
          mintInvoked := false
          replies := 1 }
      else
        match get_eth_balance env address with
        | none => { ret := .ok false, mem := mem, mintInvoked := false, replies := 0 }
        | some balance =>
          if ¬ balance > 0 then
            { ret := .ok true
              mem := mem.add_mention tweet.id tweet.text "zero_balance" false none (some address)
                domain none tweet.author_username tweet.author_id (env.sendErrorReply tweet.id "zero_balance")
              mintInvoked := false
              replies := 1 }
          else
            match check_reputation env address with
            | none => { ret := .error .systemExit, mem := mem, mintInvoked := false, replies := 0 }
            | some reputation =>
              if reputation.score < REPUTATION_THRESHOLD then
                { ret := .ok true
                  mem := mem.add_mention tweet.id tweet.text "low_reputation" false none
                    (some address) domain none tweet.author_username tweet.author_id
                    (env.sendErrorReply tweet.id "low_reputation")
                  mintInvoked := false
                  replies := 1 }
              else
                if tweet.author_id ≠ some ADMIN_ID then
                  match mem.has_successful_mint tweet.author_id (some address) with
                  | .error e => { ret := .error e, mem := mem, mintInvoked := false, replies := 0 }
                  | .ok (some _previous) =>
                    { ret := .ok true
                      mem := mem.add_mention tweet.id tweet.text "duplicate_request" false none
                        none none none tweet.author_username tweet.author_id
                        (env.sendErrorReply tweet.id "already_minted")
                      mintInvoked := false
                      replies := 1 }
                  | .ok none => mintBranch env tweet mem address domain
                else mintBranch env tweet mem address domain

/-- One pass over a batch of fetched tweets inside `run_autonomous_mode`
(chatbot.py lines 921-925): the first uncaught exception from `process_tweet`
aborts the remainder of the batch (it is caught by the outer handler at line
948, which skips the checkpoint update). -/
def processBatch (env : Env) : List Tweet → Memory → Memory × Bool
  | [], mem => (mem, true)
  | t :: ts, mem =>
    match (process_tweet env t mem).ret with
    | .ok _ => processBatch env ts (process_tweet env t mem).mem
    | .error _ => ((process_tweet env t mem).mem, false)

/-- One full loop iteration: process the batch, then update the checkpoint
(chatbot.py line 928).  The boolean reports whether the iteration completed
without an exception. -/
def runBatch (env : Env) (tweets : List Tweet) (mem : Memory) : Memory × Bool :=
  match processBatch env tweets mem with
  | (mem1, true) =>
    match mem1.update_last_tweet_id tweets with
    | .ok mem2 => (mem2, true)
    | .error _ => (mem1, false)
  | (mem1, false) => (mem1, false)

/-- Ledger states reachable from a fresh memory by processing mentions and
updating the checkpoint, under arbitrary external behaviour.  A process
restart reloads the persisted file unchanged, so restarts add no states. -/
inductive Reachable : Memory → Prop
  | init : Reachable { mentions := [], last_tweet_id := none }
  | stepTweet (env : Env) (tweet : Tweet) (mem : Memory) :
      Reachable mem → Reachable (process_tweet env tweet mem).mem
  | stepCheckpoint (tweets : List Tweet) (mem mem' : Memory) :
      Reachable mem → mem.update_last_tweet_id tweets = .ok mem' → Reachable mem'

/-- Both entries record an author and the ids agree (spec §8: at most one
successful entry per author id). -/
def successAuthorIdMatch (m1 m2 : MentionData) : Bool :=
  match m1.author, m2.author with
  | some a1, some a2 => a1.id == a2.id
  | _, _ => false

/-- Both entries record a minted address and they agree case-insensitively. -/
def successAddrMatch (m1 m2 : MentionData) : Bool :=
  match m1.minted_address, m2.minted_address with
  | some x, some y => lowerStr x == lowerStr y
  | _, _ => false

/-- Claim C3 as stated: in a ledger state, no two successful entries share an
author id or a minted address (case-insensitively), with no exemption. -/
def MintRecordUnique (mem : Memory) : Prop :=
  mem.mentions.Pairwise (fun e1 e2 =>
    e1.2.mint_success = true → e2.2.mint_success = true →
      successAuthorIdMatch e1.2 e2.2 = false ∧ successAddrMatch e1.2 e2.2 = false)

instance (mem : Memory) : Decidable (MintRecordUnique mem) := by
  unfold MintRecordUnique
  infer_instance

/-- Author-id sharing between two entries whose shared id is not the admin's. -/
def sameNonAdminAuthor (m1 m2 : MentionData) : Bool :=
  match m1.author, m2.author with
  | some a1, some a2 => (a1.id == a2.id) && (a1.id != ADMIN_ID)
  | _, _ => false

/-- Address sharing between two entries both authored by recorded non-admin
authors. -/
def sameAddrNonAdmin (m1 m2 : MentionData) : Bool :=
  match m1.author, m2.author with
  | some a1, some a2 => (a1.id != ADMIN_ID) && (a2.id != ADMIN_ID) && successAddrMatch m1 m2
  | _, _ => false

/-- The amended uniqueness invariant: no two successful entries share a
non-admin author id, and no two successful entries recorded for non-admin
authors share a minted address; entries produced for the admin identity (or
without recorded author) are exempt, matching the dup-check exemption. -/
def MintRecordUniqueNonAdmin (mem : Memory) : Prop :=
  mem.mentions.Pairwise (fun e1 e2 =>
    e1.2.mint_success = true → e2.2.mint_success = true →
      sameNonAdminAuthor e1.2 e2.2 = false ∧ sameAddrNonAdmin e1.2 e2.2 = false)

/-- Every successful ledger entry records its author (the well-formedness that
keeps `has_successful_mint` from raising). -/
def AuthorsRecorded (mem : Memory) : Prop :=
  ∀ p ∈ mem.mentions, p.2.mint_success = true → p.2.author.isSome = true

/-- The claim-level prior-mint match: a successful entry matching by author id
or by minted address (case-insensitively), exactly the comparisons of
`has_successful_mint`. -/
def priorMintMatch (m : MentionData) (author_id : Option String) (address : String) : Bool :=
  m.mint_success &&
    ((match m.author with
      | some a => authorIdEq a author_id
      | none => false) || addrEq m (some address))

theorem upsert_eq_append (l : List (String × MentionData)) (k : String) (v : MentionData)
    (h : l.any (fun p => p.1 == k) = false) : upsert l k v = l ++ [(k, v)] := by
  induction l with
  | nil => rfl
  | cons hd tl ih =>
    simp only [List.any_cons, Bool.or_eq_false_iff, beq_eq_false_iff_ne] at h
    simpa [upsert, h.1] using ih (by simpa [beq_eq_false_iff_ne] using h.2)

theorem add_mention_last (m : Memory) (tid : String) (text : List String) (st : String)
    (ms : Bool) (tx ad dom nm au aid rid : Option String) :
    (m.add_mention tid text st ms tx ad dom nm au aid rid).last_tweet_id = m.last_tweet_id := by
  unfold Memory.add_mention
  split <;> rfl

theorem add_mention_mentions (m : Memory) (tid : String) (text : List String) (st : String)
    (ms : Bool) (tx ad dom nm au aid rid : Option String)
    (hfresh : m.is_processed tid = false) (hst : ¬ st = "not_mint_request") :
    (m.add_mention tid text st ms tx ad dom nm au aid rid).mentions
      = m.mentions ++ [(tid, mkMention text st ms tx ad dom nm au aid rid)] := by
  unfold Memory.add_mention
  rw [if_neg hst]
  exact upsert_eq_append m.mentions tid _ hfresh

theorem hsmScan_ok_none (author_id address : Option String) :
    ∀ l, hsmScan author_id address l = .ok none →
      ∀ p ∈ l, p.2.mint_success = true →
        ∃ a, p.2.author = some a ∧ authorIdEq a author_id = false ∧ addrEq p.2 address = false := by
  intro l
  induction l with
  | nil => intro _ p hp; simp at hp
  | cons hd tl ih =>
    obtain ⟨tid, md⟩ := hd
    intro h p hp hsucc
    simp only [hsmScan] at h
    rw [List.mem_cons] at hp
    split at h
    · split at h
      · simp at h
      · next a hsome =>
          split at h
          · simp at h
          · next hm =>
              rcases hp with hp | hp
              · subst hp
                simp only [Bool.or_eq_true, not_or, Bool.not_eq_true] at hm
                exact ⟨a, hsome, hm.1, hm.2⟩
              · exact ih h p hp hsucc
    · next hs =>
        rcases hp with hp | hp
        · subst hp
          exact absurd hsucc hs
        · exact ih h p hp hsucc

/-- What the pipeline guarantees about any successful entry it appends for
tweet `t` on top of state `mem`: the entry's minted address and author come
from the mention, and either the author is the admin (check skipped) or the
duplicate scan over `mem` returned no match. -/
def SuccessEntryGuard (mem : Memory) (t : Tweet) (e : MentionData) : Prop :=
  ∃ address : String,
    e.minted_address = truthyStr (some address) ∧
    e.author = (match truthyStr t.author_username, truthyStr t.author_id with
                | some u, some i => some { username := u, id := i }
                | _, _ => none) ∧
    (t.author_id = some ADMIN_ID ∨ hsmScan t.author_id (some address) mem.mentions = .ok none)

theorem add_false_shape (mem : Memory) (t : Tweet) (st : String) (tx ad dom nm rid : Option String)
    (hfresh : mem.is_processed t.id = false) (hst : ¬ st = "not_mint_request") :
    ∃ e, mem.is_processed t.id = false ∧
      (mem.add_mention t.id t.text st false tx ad dom nm t.author_username t.author_id rid).mentions
        = mem.mentions ++ [(t.id, e)] ∧
      (mem.add_mention t.id t.text st false tx ad dom nm t.author_username t.author_id rid).last_tweet_id
        = mem.last_tweet_id ∧
      (e.mint_success = true → SuccessEntryGuard mem t e) := by
  refine ⟨_, hfresh,
    add_mention_mentions mem t.id t.text st false tx ad dom nm t.author_username t.author_id rid
      hfresh hst,
    add_mention_last mem t.id t.text st false tx ad dom nm t.author_username t.author_id rid, ?_⟩
  intro hms
  exact absurd hms (by simp [mkMention])

theorem add_mint_shape (mem : Memory) (t : Tweet) (ms : Bool) (address : String)
    (tx dom nm rid : Option String)
    (hfresh : mem.is_processed t.id = false)
    (hguard : t.author_id = some ADMIN_ID ∨ hsmScan t.author_id (some address) mem.mentions = .ok none) :
    ∃ e, mem.is_processed t.id = false ∧
      (mem.add_mention t.id t.text "processed" ms tx (some address) dom nm t.author_username
          t.author_id rid).mentions
        = mem.mentions ++ [(t.id, e)] ∧
      (mem.add_mention t.id t.text "processed" ms tx (some address) dom nm t.author_username
          t.author_id rid).last_tweet_id
        = mem.last_tweet_id ∧
      (e.mint_success = true → SuccessEntryGuard mem t e) := by
  refine ⟨_, hfresh,
    add_mention_mentions mem t.id t.text "processed" ms tx (some address) dom nm t.author_username
      t.author_id rid hfresh (by decide),
    add_mention_last mem t.id t.text "processed" ms tx (some address) dom nm t.author_username
      t.author_id rid, ?_⟩
  intro _
  exact ⟨address, rfl, rfl, hguard⟩

/-- One `process_tweet` call either leaves the memory unchanged or appends a
single fresh entry; a successful appended entry satisfies
`SuccessEntryGuard`.  The checkpoint field is never touched. -/
theorem process_tweet_shape (env : Env) (t : Tweet) (mem : Memory) :
    (process_tweet env t mem).mem = mem ∨
    ∃ e, mem.is_processed t.id = false ∧
      (process_tweet env t mem).mem.mentions = mem.mentions ++ [(t.id, e)] ∧
      (process_tweet env t mem).mem.last_tweet_id = mem.last_tweet_id ∧
      (e.mint_success = true → SuccessEntryGuard mem t e) := by
  unfold process_tweet
  split
  · exact Or.inl rfl
  next h1 =>
    split
    · exact Or.inl rfl
    next h2 =>
      have hfresh : mem.is_processed t.id = false := by
        simpa using h2
      split
      · exact Or.inl rfl
      next address domain status tagged heq =>
        split
        · exact Or.inr (add_false_shape mem t "invalid_address" none (some address) domain none
            (env.sendErrorReply t.id "invalid_address") hfresh (by decide))
        next hinv =>
          split
          · exact Or.inl rfl
          next balance hbal =>
            split
            · exact Or.inr (add_false_shape mem t "zero_balance" none (some address) domain none
                (env.sendErrorReply t.id "zero_balance") hfresh (by decide))
            next hpos =>
              split
              · exact Or.inl rfl
              next reputation hrep =>
                split
                · exact Or.inr (add_false_shape mem t "low_reputation" none (some address) domain
                    none (env.sendErrorReply t.id "low_reputation") hfresh (by decide))
                next hscore =>
                  split
                  · next hadmin =>
                      split
                      · exact Or.inl rfl
                      · exact Or.inr (add_false_shape mem t "duplicate_request" none none none none
                          (env.sendErrorReply t.id "already_minted") hfresh (by decide))
                      next hnone =>
                        unfold mintBranch
                        split
                        next ms tx rid nm hfour =>
                          exact Or.inr (add_mint_shape mem t ms address (some tx) domain (some nm)
                            rid hfresh (Or.inr hnone))
                        · exact Or.inr (add_false_shape mem t "error" none (some address) domain
                            none none hfresh (by decide))
                        · exact Or.inr (add_false_shape mem t "error" none (some address) domain
                            none none hfresh (by decide))
                  · next hadmin =>
                      have hadm : t.author_id = some ADMIN_ID := not_not.mp hadmin
                      unfold mintBranch
                      split
                      next ms tx rid nm hfour =>
                        exact Or.inr (add_mint_shape mem t ms address (some tx) domain (some nm)
                          rid hfresh (Or.inl hadm))
                      · exact Or.inr (add_false_shape mem t "error" none (some address) domain
                          none none hfresh (by decide))
                      · exact Or.inr (add_false_shape mem t "error" none (some address) domain
                          none none hfresh (by decide))

theorem truthyStr_eq_some (o : Option String) (s : String) (h : truthyStr o = some s) :
    o = some s ∧ ¬ s = "" := by
  cases o with
  | none => simp [truthyStr] at h
  | some v =>
    by_cases hv : v = ""
    · simp [truthyStr, hv] at h
    · simp only [truthyStr, hv, if_false, Option.some.injEq] at h
      subst h
      exact ⟨rfl, hv⟩

theorem sameNonAdminAuthor_admin (m1 m2 : MentionData) (a2 : Author)
    (h2 : m2.author = some a2) (hadm : a2.id = ADMIN_ID) :
    sameNonAdminAuthor m1 m2 = false := by
  unfold sameNonAdminAuthor
  rw [h2]
  cases hm : m1.author with
  | none => rfl
  | some a1 =>
    by_cases he : a1.id = a2.id
    · simp [he, hadm]
    · simp [he]

theorem sameAddrNonAdmin_admin (m1 m2 : MentionData) (a2 : Author)
    (h2 : m2.author = some a2) (hadm : a2.id = ADMIN_ID) :
    sameAddrNonAdmin m1 m2 = false := by
  unfold sameAddrNonAdmin
  rw [h2]
  cases hm : m1.author with
  | none => rfl
  | some a1 => simp [hadm]

theorem sameNonAdminAuthor_none (m1 m2 : MentionData) (h2 : m2.author = none) :
    sameNonAdminAuthor m1 m2 = false := by
  unfold sameNonAdminAuthor
  rw [h2]
  cases m1.author <;> rfl

theorem sameAddrNonAdmin_none (m1 m2 : MentionData) (h2 : m2.author = none) :
    sameAddrNonAdmin m1 m2 = false := by
  unfold sameAddrNonAdmin
  rw [h2]
  cases m1.author <;> rfl

theorem successAddrMatch_of_addrEq_false (m1 m2 : MentionData) (address : String)
    (hne : ¬ address = "")
    (h2 : m2.minted_address = truthyStr (some address))
    (hfa : addrEq m1 (some address) = false) :
    successAddrMatch m1 m2 = false := by
  replace hfa : ((address != "") && (lowerStr (m1.minted_address.getD "") == lowerStr address))
      = false := hfa
  have h1 : (address != "") = true := by simpa [bne_iff_ne] using hne
  rw [h1, Bool.true_and] at hfa
  unfold successAddrMatch
  have haddr2 : m2.minted_address = some address := by
    rw [h2]; simp [truthyStr, hne]
  rw [haddr2]
  cases hm : m1.minted_address with
  | none => rfl
  | some x =>
    rw [hm] at hfa
    simpa using hfa

/-- Appending a successful guarded entry keeps the amended pairwise
uniqueness: the duplicate scan returning no match rules out any clash with an
earlier successful entry, and admin-authored (or authorless) entries are
exempt by definition. -/
theorem pairwise_preserved (env : Env) (t : Tweet) (mem : Memory)
    (h : MintRecordUniqueNonAdmin mem) :
    MintRecordUniqueNonAdmin (process_tweet env t mem).mem := by
  rcases process_tweet_shape env t mem with hsame | ⟨e, _hfresh, hmen, _, hguard⟩
  · unfold MintRecordUniqueNonAdmin at h ⊢
    rw [hsame]
    exact h
  · unfold MintRecordUniqueNonAdmin at h ⊢
    rw [hmen, List.pairwise_append]
    refine ⟨h, List.pairwise_singleton _ _, ?_⟩
    intro p hp q hq hp_succ
    rw [List.mem_singleton] at hq
    subst hq
    intro he_succ
    obtain ⟨address, haddr, hauth, hbranch⟩ := hguard he_succ
    have hAuthorId : ∀ a2, e.author = some a2 → truthyStr t.author_id = some a2.id := by
      intro a2 h2
      rw [hauth] at h2
      revert h2
      rcases htu : truthyStr t.author_username with _ | u <;>
        rcases hti : truthyStr t.author_id with _ | i <;> intro h2
      · exact absurd h2 (by simp)
      · exact absurd h2 (by simp)
      · exact absurd h2 (by simp)
      · simp only [Option.some.injEq] at h2
        rw [← h2]
    rcases hea : e.author with _ | a2
    · exact ⟨sameNonAdminAuthor_none p.2 e hea, sameAddrNonAdmin_none p.2 e hea⟩
    · rcases hbranch with hadm | hnone
      · have ha2 : a2.id = ADMIN_ID := by
          have h3 := hAuthorId a2 hea
          rw [hadm] at h3
          have htr : truthyStr (some ADMIN_ID) = some ADMIN_ID := by decide
          rw [htr] at h3
          simpa using h3.symm
        exact ⟨sameNonAdminAuthor_admin p.2 e a2 hea ha2, sameAddrNonAdmin_admin p.2 e a2 hea ha2⟩
      · obtain ⟨a1, hpa, hidf, haf⟩ :=
          hsmScan_ok_none t.author_id (some address) mem.mentions hnone p hp hp_succ
        have hti : t.author_id = some a2.id := (truthyStr_eq_some _ _ (hAuthorId a2 hea)).1
        have hid : (a1.id == a2.id) = false := by
          rw [hti] at hidf
          unfold authorIdEq at hidf
          exact hidf
        have hSame : sameNonAdminAuthor p.2 e = false := by
          unfold sameNonAdminAuthor
          rw [hpa, hea]
          simp [hid]
        have hAddrF : successAddrMatch p.2 e = false := by
          by_cases haddr0 : address = ""
          · have hnomint : e.minted_address = none := by
              rw [haddr, haddr0]; rfl
            unfold successAddrMatch
            rw [hnomint]
            cases p.2.minted_address <;> rfl
          · exact successAddrMatch_of_addrEq_false p.2 e address haddr0 haddr haf
        have hAddr : sameAddrNonAdmin p.2 e = false := by
          unfold sameAddrNonAdmin
          rw [hpa, hea]
          simp [hAddrF]
        exact ⟨hSame, hAddr⟩

theorem update_last_mentions (m : Memory) (tweets : List Tweet) (m' : Memory)
    (h : m.update_last_tweet_id tweets = .ok m') : m'.mentions = m.mentions := by
  unfold Memory.update_last_tweet_id at h
  split at h
  · injection h with h; rw [← h]
  · split at h
    · exact absurd h (by simp)
    · split at h
      · injection h with h; rw [← h]
      · split at h
        · injection h with h; rw [← h]
        · split at h
          · exact absurd h (by simp)
          · split at h
            · injection h with h; rw [← h]
            · injection h with h; rw [← h]

/-- A 40-hex-digit test address literal. -/
def hexLit : String := "0xaaaaaaaaaaaaaaaaaaaaaaaaaaaaaaaaaaaaaaaa"

/-- External world in which every service behaves: positive balance, passing
reputation, a mint whose receipt confirms on the first poll with token id 7,
readable metadata, successful conversion and upload, and a parsable reply id. -/
def envOK : Env :=
  { isAddress := fun _ => true
    resolveEns := fun _ => .exception
    getEthBalance := fun _ => some 1
    reputationAttempt := fun _ _ => some { score := 50 }
    txReceipt := fun _ _ => .present (some "0x1")
      [{ address := "0xc0ffee", topics := ["0x0", "0x0", "0x0", "0x7"] }]
    mintNft := fun _ => some "0xdeadbeef"
    tokenUriSvg := fun _ _ => some ("Xonin 7", "svgdata")
    svgToPng := fun _ _ _ => some "out.png"
    mediaUpload := fun _ => some "321"
    replySuccessParse := fun _ => some "999"
    sendErrorReply := fun _ _ => some "55" }

/-- First mint request sent by the admin account. -/
def adminTweet1 : Tweet :=
  { id := "1", text := ["@XoninNFT", "mint", hexLit],
    author_username := some "DukeOphir", author_id := some ADMIN_ID }

/-- Second mint request sent by the admin account, for the same address. -/
def adminTweet2 : Tweet :=
  { id := "2", text := ["@XoninNFT", "mint", hexLit],
    author_username := some "DukeOphir", author_id := some ADMIN_ID }

/-- The ledger after the admin account mints twice for the same address. -/
def memAdminTwice : Memory :=
  (process_tweet envOK adminTweet2
    (process_tweet envOK adminTweet1 { mentions := [], last_tweet_id := none }).mem).mem

/-- C3 counterexample: a reachable ledger state holding two entries with
`mint_success = true` for the same author id (the configured admin) and the
same minted address — the admin identity is exempt from the duplicate check,
so the at-most-one invariant does not extend to it. -/
theorem adminDoubleMintBreaksUniqueness :
    Reachable memAdminTwice ∧ ¬ MintRecordUnique memAdminTwice :=
  ⟨Reachable.stepTweet envOK adminTweet2 _
      (Reachable.stepTweet envOK adminTweet1 _ Reachable.init),
    by decide⟩

/-- C3 (amended): in every reachable ledger state, no two successful entries
share a non-admin author id, and no two successful entries recorded for
non-admin authors share a minted address (case-insensitively); entries made
for the configured admin identity are exempt, because the duplicate check is
skipped for it.  This holds across restarts, which reload the state
unchanged. -/
theorem reachableAtMostOneNonAdmin (mem : Memory) (h : Reachable mem) :
    MintRecordUniqueNonAdmin mem := by
  induction h with
  | init => exact List.Pairwise.nil
  | stepTweet env tweet mem hr ih => exact pairwise_preserved env tweet mem ih
  | stepCheckpoint tweets mem mem' hr hupd ih =>
    unfold MintRecordUniqueNonAdmin at ih ⊢
    rw [update_last_mentions mem tweets mem' hupd]
    exact ih

theorem reachableAtMostOneNonAdminWitness : MintRecordUniqueNonAdmin memAdminTwice :=
  reachableAtMostOneNonAdmin memAdminTwice
    (Reachable.stepTweet envOK adminTweet2 _
      (Reachable.stepTweet envOK adminTweet1 _ Reachable.init))

/-- C4: processing a mention whose id is already present in the ledger is a
no-op — no mint invocation, no new ledger entry, no reply, and the call
returns False. -/
theorem processedMentionReplayNoop (env : Env) (tweet : Tweet) (mem : Memory)
    (h : mem.is_processed tweet.id = true) :
    process_tweet env tweet mem =
      { ret := .ok false, mem := mem, mintInvoked := false, replies := 0 } := by
  unfold process_tweet
  split
  · rfl
  · rfl

/-- A ledger already holding tweet id 7. -/
def memSeven : Memory :=
  { mentions := [("7", mkMention ["hello"] "error" false none none none none none none none)],
    last_tweet_id := none }

theorem processedMentionReplayNoopWitness :
    process_tweet envOK
        { id := "7", text := ["@XoninNFT", "again", hexLit],
          author_username := some "bob", author_id := some "42" } memSeven
      = { ret := .ok false, mem := memSeven, mintInvoked := false, replies := 0 } :=
  processedMentionReplayNoop envOK
    { id := "7", text := ["@XoninNFT", "again", hexLit],
      author_username := some "bob", author_id := some "42" } memSeven (by decide)

theorem gtdLoop_attempts_le (f : Nat → ReceiptResp) :
    ∀ rem i g, gtdLoop f i rem = .ok g → g.attempts ≤ i + rem := by
  intro rem
  induction rem with
  | zero =>
    intro i g h
    injection h with h
    subst h
    exact Nat.le_add_right i 0
  | succ n ih =>
    intro i g h
    unfold gtdLoop at h
    split at h
    · have := ih (i + 1) g h; omega
    · split at h
      · exact absurd h (by simp)
      · split at h
        · injection h with h
          subst h
          show i + 1 ≤ i + (n + 1)
          omega
        · split at h
          · have := ih (i + 1) g h; omega
          · split at h
            · split at h
              · injection h with h
                subst h
                show i + 1 ≤ i + (n + 1)
                omega
              · have := ih (i + 1) g h; omega
            · have := ih (i + 1) g h; omega

theorem gtdLoop_absent (f : Nat → ReceiptResp) :
    ∀ rem i, (∀ j, i ≤ j → j < i + rem → f j = .absent) →
      gtdLoop f i rem
        = .ok { tokenId := none, contractAddress := none, confirmed := false, attempts := i + rem } := by
  intro rem
  induction rem with
  | zero => intro i h; rfl
  | succ n ih =>
    intro i h
    rw [show i + (n + 1) = (i + 1) + n from by omega]
    have hrec := ih (i + 1) (fun j hj1 hj2 => h j (by omega) (by omega))
    unfold gtdLoop
    rw [h i (le_refl i) (by omega)]
    exact hrec

theorem gtdLoop_confirmed (f : Nat → ReceiptResp) :
    ∀ rem i g, gtdLoop f i rem = .ok g → g.confirmed = true →
      ∃ k st logs lg, i ≤ k ∧ k < i + rem ∧ f k = .present st logs ∧
        (∃ v, parseHex16 (st.getD "0") = some v ∧ ¬ v = 0) ∧
        logs.getLast? = some lg ∧ 4 ≤ lg.topics.length ∧
        ∃ w, parseHex16 (lg.topics.getD 3 "") = some w ∧
          g = { tokenId := some w, contractAddress := some lg.address, confirmed := true,
                attempts := k + 1 } := by
  intro rem
  induction rem with
  | zero =>
    intro i g h hconf
    injection h with h
    subst h
    simp at hconf
  | succ n ih =>
    intro i g h hconf
    unfold gtdLoop at h
    split at h
    · obtain ⟨k, st, logs, lg, hk1, hk2, hrest⟩ := ih (i + 1) g h hconf
      exact ⟨k, st, logs, lg, by omega, by omega, hrest⟩
    · next st logs hfi =>
        split at h
        · exact absurd h (by simp)
        · next v hv =>
            split at h
            · injection h with h
              subst h
              simp at hconf
            · next hv0 =>
                split at h
                · obtain ⟨k, st', logs', lg, hk1, hk2, hrest⟩ := ih (i + 1) g h hconf
                  exact ⟨k, st', logs', lg, by omega, by omega, hrest⟩
                · next lg hlast =>
                    split at h
                    · next htop =>
                        split at h
                        · next w hw =>
                            injection h with h
                            subst h
                            exact ⟨i, st, logs, lg, le_refl i, by omega, hfi, ⟨v, hv, hv0⟩,
                              hlast, htop.2, w, hw, rfl⟩
                        · obtain ⟨k, st', logs', lg', hk1, hk2, hrest⟩ := ih (i + 1) g h hconf
                          exact ⟨k, st', logs', lg', by omega, by omega, hrest⟩
                    · obtain ⟨k, st', logs', lg', hk1, hk2, hrest⟩ := ih (i + 1) g h hconf
                      exact ⟨k, st', logs', lg', by omega, by omega, hrest⟩

theorem gtdLoop_absent_then_fail (f : Nat → ReceiptResp) :
    ∀ k rem i st logs, k < rem → (∀ j, i ≤ j → j < i + k → f j = .absent) →
      f (i + k) = .present st logs → parseHex16 (st.getD "0") = some 0 →
      gtdLoop f i rem
        = .ok { tokenId := none, contractAddress := none, confirmed := false,
                attempts := i + k + 1 } := by
  intro k
  induction k with
  | zero =>
    intro rem i st logs hlt habs hf hst
    cases rem with
    | zero => omega
    | succ m =>
      rw [show i + 0 = i from rfl] at hf
      simp [gtdLoop, hf, hst]
  | succ n ih =>
    intro rem i st logs hlt habs hf hst
    cases rem with
    | zero => omega
    | succ m =>
      unfold gtdLoop
      rw [habs i (le_refl i) (by omega)]
      have hrec := ih m (i + 1) st logs (by omega)
        (fun j h1 h2 => habs j (by omega) (by omega))
        (by rw [show (i + 1) + n = i + (n + 1) from by omega]; exact hf) hst
      rw [show i + (n + 1) + 1 = (i + 1) + n + 1 from by omega]
      exact hrec

/-- C6: receipt polling is bounded by the configured four attempts and then
reports `confirmed = false` when every poll found no receipt; it reports
success only with a receipt whose status parses nonzero and whose last log
carries at least four topics with a parseable fourth topic; and a receipt
whose status parses to 0 (failure) stops polling immediately with
`confirmed = false` after that attempt. -/
theorem receiptPollingBounded :
    (∀ f g, get_transaction_data f = .ok g → g.attempts ≤ 4) ∧
    (∀ f, (∀ j, j < 4 → f j = .absent) →
      get_transaction_data f
        = .ok { tokenId := none, contractAddress := none, confirmed := false, attempts := 4 }) ∧
    (∀ f g, get_transaction_data f = .ok g → g.confirmed = true →
      ∃ k st logs lg, k < 4 ∧ f k = .present st logs ∧
        (∃ v, parseHex16 (st.getD "0") = some v ∧ ¬ v = 0) ∧
        logs.getLast? = some lg ∧ 4 ≤ lg.topics.length ∧
        ∃ w, parseHex16 (lg.topics.getD 3 "") = some w ∧
          g = { tokenId := some w, contractAddress := some lg.address, confirmed := true,
                attempts := k + 1 }) ∧
    (∀ f k st logs, k < 4 → (∀ j, j < k → f j = .absent) → f k = .present st logs →
      parseHex16 (st.getD "0") = some 0 →
      get_transaction_data f
        = .ok { tokenId := none, contractAddress := none, confirmed := false,
                attempts := k + 1 }) := by
  refine ⟨?_, ?_, ?_, ?_⟩
  · intro f g h
    exact gtdLoop_attempts_le f 4 0 g h
  · intro f h
    exact gtdLoop_absent f 4 0 (fun j _ hj => h j (by omega))
  · intro f g h hconf
    obtain ⟨k, st, logs, lg, _, hk2, hrest⟩ := gtdLoop_confirmed f 4 0 g h hconf
    exact ⟨k, st, logs, lg, by omega, hrest⟩
  · intro f k st logs hk habs hf hst
    have := gtdLoop_absent_then_fail f k 4 0 st logs hk
      (fun j _ hj => habs j (by omega)) (by simpa using hf) hst
    simpa using this

theorem receiptPollingBoundedWitness :
    get_transaction_data (fun _ => ReceiptResp.absent)
      = .ok { tokenId := none, contractAddress := none, confirmed := false, attempts := 4 } :=
  receiptPollingBounded.2.1 (fun _ => ReceiptResp.absent) (fun _ _ => rfl)

/-- The empty initial ledger. -/
def memEmpty : Memory := { mentions := [], last_tweet_id := none }

/-- A non-admin mint request used as concrete input. -/
def tweetBob : Tweet :=
  { id := "10", text := ["@XoninNFT", "mint", "to", hexLit],
    author_username := some "bob", author_id := some "42" }

/-- Like `envOK` but the explorer never returns a receipt. -/
def envNoReceipt : Env := { envOK with txReceipt := fun _ _ => ReceiptResp.absent }

/-- Like `envOK` but the reply stream never yields a parsable reply id. -/
def envLostReply : Env := { envOK with replySuccessParse := fun _ => none }

/-- C5 (code bug): when the receipt query returns no result on all four
polls, the executor does report `confirmed = false`, but its failure return
has three components while the caller unpacks four, so `process_tweet`
catches the ValueError and ledgers the mention with status "error" — not
with status "processed" and mint_success = false as specified. -/
theorem receiptTimeoutLedgeredAsError :
    get_transaction_data (envNoReceipt.txReceipt "0xdeadbeef")
        = .ok { tokenId := none, contractAddress := none, confirmed := false, attempts := 4 } ∧
    process_mint_request envNoReceipt "10" hexLit
        = { ret := .ok (.three false "0xdeadbeef" none), replyAttempted := false } ∧
    (∃ e, lookupMention ((process_tweet envNoReceipt tweetBob memEmpty).mem).mentions "10"
          = some e ∧ e.status = "error" ∧ e.mint_success = false) ∧
    (process_tweet envNoReceipt tweetBob memEmpty).ret = .ok false := by
  refine ⟨by decide, by decide, ⟨mkMention tweetBob.text "error" false none (some hexLit) none
    none (some "bob") (some "42") none, by decide, by decide, by decide⟩, by decide⟩

/-- C1 (code bug): when the mint transaction confirms on-chain but the reply
stream yields no parsable reply id, `reply_id` is referenced unassigned at
line 603; `process_mint_request` raises UnboundLocalError, and the mention is
ledgered with status "error" and mint_success = false.  The recorded outcome
is therefore not independent of the reply step: a lost reply downgrades a
successful mint instead of recording it as successful with a None reply id. -/
theorem lostReplyDowngradesMint :
    get_transaction_data (envLostReply.txReceipt "0xdeadbeef")
        = .ok { tokenId := some 7, contractAddress := some "0xc0ffee", confirmed := true,
                attempts := 1 } ∧
    process_mint_request envLostReply "10" hexLit
        = { ret := .error .unboundLocal, replyAttempted := true } ∧
    (∃ e, lookupMention ((process_tweet envLostReply tweetBob memEmpty).mem).mentions "10"
          = some e ∧ e.status = "error" ∧ e.mint_success = false ∧ e.reply_id = none) := by
  refine ⟨by decide, by decide, ⟨mkMention tweetBob.text "error" false none (some hexLit) none
    none (some "bob") (some "42") none, by decide, by decide, by decide, by decide⟩⟩

/-- Under passing admission stages, `process_tweet` reaches the mint section. -/
theorem process_tweet_reaches_mint (env : Env) (tweet : Tweet) (mem : Memory)
    (address : String) (domain tagged : Option String) (b : ℚ) (rep : Reputation)
    (htext : ¬ tweet.text = []) (hid : ¬ tweet.id = "")
    (hfresh : mem.is_processed tweet.id = false)
    (hex : is_valid_mint_request_with_feedback env tweet.text
      = (some address, domain, some "valid", tagged))
    (hbal : env.getEthBalance address = some b) (hbpos : b > 0)
    (hrep : check_reputation env address = some rep)
    (hscore : ¬ rep.score < REPUTATION_THRESHOLD)
    (hdup : tweet.author_id = some ADMIN_ID ∨
      mem.has_successful_mint tweet.author_id (some address) = .ok none) :
    process_tweet env tweet mem = mintBranch env tweet mem address domain := by
  have h1 : ¬ (tweet.text = [] ∨ tweet.id = "") := by
    push_neg
    exact ⟨htext, hid⟩
  rcases hdup with hadm | hnone
  · simp [process_tweet, h1, hfresh, hex, get_eth_balance, hbal, hbpos, hrep, hscore, hadm]
  · by_cases hadm : tweet.author_id = some ADMIN_ID
    · simp [process_tweet, h1, hfresh, hex, get_eth_balance, hbal, hbpos, hrep, hscore, hadm]
    · simp [process_tweet, h1, hfresh, hex, get_eth_balance, hbal, hbpos, hrep, hscore, hadm,
        hnone]

/-- C10: after a confirmed mint with readable metadata, a failed SVG-to-PNG
conversion (`save_svg_to_png` returning None) leaves `media_id` unassigned
and line 576 raises UnboundLocalError; likewise a reply stream with no
parsable tool response leaves `reply_id` unassigned and line 603 raises.
Either way `process_tweet`'s handler ledgers the mention with status "error"
and mint_success = false, despite the on-chain mint having succeeded. -/
theorem unboundLocalsLedgerError (env : Env) (tweet : Tweet) (mem : Memory)
    (address : String) (domain tagged : Option String) (b : ℚ) (rep : Reputation)
    (txh : String) (att tid : Nat) (ca nm svg : String)
    (htext : ¬ tweet.text = []) (hid : ¬ tweet.id = "")
    (hfresh : mem.is_processed tweet.id = false)
    (hex : is_valid_mint_request_with_feedback env tweet.text
      = (some address, domain, some "valid", tagged))
    (hbal : env.getEthBalance address = some b) (hbpos : b > 0)
    (hrep : check_reputation env address = some rep)
    (hscore : ¬ rep.score < REPUTATION_THRESHOLD)
    (hdup : tweet.author_id = some ADMIN_ID ∨
      mem.has_successful_mint tweet.author_id (some address) = .ok none)
    (hmint : env.mintNft address = some txh)
    (hgtd : get_transaction_data (env.txReceipt txh)
      = .ok { tokenId := some tid, contractAddress := some ca, confirmed := true, attempts := att })
    (hmeta : env.tokenUriSvg ca tid = some (nm, svg))
    (hnm : ¬ nm = "") (hsvg : ¬ svg = "") :
    (env.svgToPng ca tid svg = none →
      process_mint_request env tweet.id address
          = { ret := .error .unboundLocal, replyAttempted := false } ∧
      ∃ e, (process_tweet env tweet mem).mem.mentions = mem.mentions ++ [(tweet.id, e)] ∧
        e.status = "error" ∧ e.mint_success = false) ∧
    (∀ p m, env.svgToPng ca tid svg = some p → env.mediaUpload p = some m →
      env.replySuccessParse tweet.id = none →
      process_mint_request env tweet.id address
          = { ret := .error .unboundLocal, replyAttempted := true } ∧
      ∃ e, (process_tweet env tweet mem).mem.mentions = mem.mentions ++ [(tweet.id, e)] ∧
        e.status = "error" ∧ e.mint_success = false) := by
  have hpt := process_tweet_reaches_mint env tweet mem address domain tagged b rep htext hid
    hfresh hex hbal hbpos hrep hscore hdup
  constructor
  · intro hpng
    have hpmr : process_mint_request env tweet.id address
        = { ret := .error .unboundLocal, replyAttempted := false } := by
      simp [process_mint_request, hmint, hgtd, hmeta, hnm, hsvg, hpng]
    refine ⟨hpmr, ?_⟩
    rw [hpt]
    unfold mintBranch
    rw [hpmr]
    exact ⟨mkMention tweet.text "error" false none (some address) domain none
        tweet.author_username tweet.author_id none,
      add_mention_mentions mem tweet.id tweet.text "error" false none (some address) domain none
        tweet.author_username tweet.author_id none hfresh (by decide), rfl, rfl⟩
  · intro p m hpng hup hreply
    have hpmr : process_mint_request env tweet.id address
        = { ret := .error .unboundLocal, replyAttempted := true } := by
      simp [process_mint_request, hmint, hgtd, hmeta, hnm, hsvg, hpng, hup, hreply]
    refine ⟨hpmr, ?_⟩
    rw [hpt]
    unfold mintBranch
    rw [hpmr]
    exact ⟨mkMention tweet.text "error" false none (some address) domain none
        tweet.author_username tweet.author_id none,
      add_mention_mentions mem tweet.id tweet.text "error" false none (some address) domain none
        tweet.author_username tweet.author_id none hfresh (by decide), rfl, rfl⟩

/-- Like `envOK` but SVG-to-PNG conversion fails. -/
def envNoPng : Env := { envOK with svgToPng := fun _ _ _ => none }

theorem unboundLocalsLedgerErrorWitness :
    process_mint_request envNoPng "10" hexLit
        = { ret := .error .unboundLocal, replyAttempted := false } ∧
    ∃ e, (process_tweet envNoPng tweetBob memEmpty).mem.mentions
        = memEmpty.mentions ++ [("10", e)] ∧ e.status = "error" ∧ e.mint_success = false :=
  (unboundLocalsLedgerError envNoPng tweetBob memEmpty hexLit none none 1 { score := 50 }
    "0xdeadbeef" 1 7 "0xc0ffee" "Xonin 7" "svgdata" (by decide) (by decide) (by decide)
    (by decide) (by decide) (by decide) (by decide) (by decide) (Or.inr (by decide)) (by decide)
    (by decide) (by decide) (by decide) (by decide)).1 rfl

/-- Like `envOK` but the balance query raises (caught and turned into None). -/
def envBalErr : Env := { envOK with getEthBalance := fun _ => none }

/-- Like `envOK` but every reputation attempt raises, so `check_reputation`
returns None after its three attempts. -/
def envRepErr : Env := { envOK with reputationAttempt := fun _ _ => none }

/-- C2 counterexample: with a valid request whose balance query fails, the
pipeline does not reject with zero-balance — it writes no ledger entry,
sends no reply, invokes no mint, and just returns False, leaving the mention
unrecorded (a silent skip). -/
theorem balanceErrorSilentSkip :
    process_tweet envBalErr tweetBob memEmpty
      = { ret := .ok false, mem := memEmpty, mintInvoked := false, replies := 0 } := by
  decide

/-- C2 (amended): a failed balance query silently skips the mention — no
ledger entry, no reply, no mint, return False — rather than rejecting it
with zero-balance; a failed reputation query (after its three bounded
attempts) terminates the whole process via exit(0) rather than rejecting the
mention.  Neither failure proceeds with the mint. -/
theorem balanceOrReputationFailurePath (env : Env) (tweet : Tweet) (mem : Memory)
    (address : String) (domain tagged : Option String)
    (htext : ¬ tweet.text = []) (hid : ¬ tweet.id = "")
    (hfresh : mem.is_processed tweet.id = false)
    (hex : is_valid_mint_request_with_feedback env tweet.text
      = (some address, domain, some "valid", tagged)) :
    (env.getEthBalance address = none →
      process_tweet env tweet mem
        = { ret := .ok false, mem := mem, mintInvoked := false, replies := 0 }) ∧
    (∀ b : ℚ, env.getEthBalance address = some b → b > 0 →
      check_reputation env address = none →
      process_tweet env tweet mem
        = { ret := .error .systemExit, mem := mem, mintInvoked := false, replies := 0 }) := by
  have h1 : ¬ (tweet.text = [] ∨ tweet.id = "") := by
    push_neg
    exact ⟨htext, hid⟩
  constructor
  · intro hbal
    simp [process_tweet, h1, hfresh, hex, get_eth_balance, hbal]
  · intro b hbal hbpos hrep
    simp [process_tweet, h1, hfresh, hex, get_eth_balance, hbal, hbpos, hrep]

theorem balanceOrReputationFailurePathWitness :
    process_tweet envRepErr tweetBob memEmpty
      = { ret := .error .systemExit, mem := memEmpty, mintInvoked := false, replies := 0 } :=
  (balanceOrReputationFailurePath envRepErr tweetBob memEmpty hexLit none none (by decide)
    (by decide) (by decide) (by decide)).2 1 rfl (by decide) (by decide)

theorem hsmScan_wf_not_error (author_id address : Option String) :
    ∀ l, (∀ p ∈ l, p.2.mint_success = true → p.2.author.isSome = true) →
      ∀ e, ¬ hsmScan author_id address l = .error e := by
  intro l
  induction l with
  | nil => intro _ e h; simp [hsmScan] at h
  | cons hd tl ih =>
    intro hwf e h
    obtain ⟨tid, md⟩ := hd
    simp only [hsmScan] at h
    split at h
    · next hs =>
        split at h
        · next hnone =>
            have hsome := hwf (tid, md) (by simp) hs
            rw [hnone] at hsome
            simp at hsome
        · next a hma =>
            split at h
            · simp at h
            · exact ih (fun p hp hps => hwf p (by simp [hp]) hps) e h
    · exact ih (fun p hp hps => hwf p (by simp [hp]) hps) e h

instance (mem : Memory) : Decidable (AuthorsRecorded mem) := by
  unfold AuthorsRecorded
  infer_instance

theorem hsmScan_wf_some_iff (author_id : Option String) (address : String) :
    ∀ l, (∀ p ∈ l, p.2.mint_success = true → p.2.author.isSome = true) →
      ((∃ t, hsmScan author_id (some address) l = .ok (some t)) ↔
        ∃ p ∈ l, priorMintMatch p.2 author_id address = true) := by
  intro l
  induction l with
  | nil => simp [hsmScan]
  | cons hd tl ih =>
    intro hwf
    obtain ⟨tid, md⟩ := hd
    have hwtl : ∀ p ∈ tl, p.2.mint_success = true → p.2.author.isSome = true :=
      fun p hp hps => hwf p (by simp [hp]) hps
    by_cases hs : md.mint_success = true
    · have hsome := hwf (tid, md) (by simp) hs
      rcases hma : md.author with _ | a
      · rw [hma] at hsome; simp at hsome
      · by_cases hm : (authorIdEq a author_id || addrEq md (some address)) = true
        · constructor
          · intro _
            refine ⟨(tid, md), by simp, ?_⟩
            unfold priorMintMatch
            rw [hma, hs, hm]
            rfl
          · intro _
            exact ⟨tid, by simp [hsmScan, hs, hma, hm]⟩
        · have heq : hsmScan author_id (some address) ((tid, md) :: tl)
              = hsmScan author_id (some address) tl := by
            simp [hsmScan, hs, hma, hm]
          rw [heq, ih hwtl]
          constructor
          · intro ⟨p, hp, hpm⟩
            exact ⟨p, by simp [hp], hpm⟩
          · intro ⟨p, hp, hpm⟩
            rcases List.mem_cons.mp hp with hp1 | hp2
            · exfalso
              subst hp1
              unfold priorMintMatch at hpm
              rw [hma, hs] at hpm
              simp only [Bool.true_and] at hpm
              exact hm hpm
            · exact ⟨p, hp2, hpm⟩
    · have heq : hsmScan author_id (some address) ((tid, md) :: tl)
          = hsmScan author_id (some address) tl := by
        simp [hsmScan, hs]
      rw [heq, ih hwtl]
      constructor
      · intro ⟨p, hp, hpm⟩
        exact ⟨p, by simp [hp], hpm⟩
      · intro ⟨p, hp, hpm⟩
        rcases List.mem_cons.mp hp with hp1 | hp2
        · exfalso
          subst hp1
          unfold priorMintMatch at hpm
          simp only [Bool.not_eq_true] at hs
          rw [hs] at hpm
          simp at hpm
        · exact ⟨p, hp2, hpm⟩

theorem mintBranch_invoked (env : Env) (tweet : Tweet) (mem : Memory) (address : String)
    (domain : Option String) :
    (mintBranch env tweet mem address domain).mintInvoked = true := by
  unfold mintBranch
  split <;> rfl

/-- Under passing admission stages for a non-admin author, a duplicate-scan
match produces exactly the duplicate_request outcome. -/
theorem process_tweet_dup (env : Env) (tweet : Tweet) (mem : Memory)
    (address : String) (domain tagged : Option String) (b : ℚ) (rep : Reputation) (t : String)
    (htext : ¬ tweet.text = []) (hid : ¬ tweet.id = "")
    (hfresh : mem.is_processed tweet.id = false)
    (hex : is_valid_mint_request_with_feedback env tweet.text
      = (some address, domain, some "valid", tagged))
    (hbal : env.getEthBalance address = some b) (hbpos : b > 0)
    (hrep : check_reputation env address = some rep)
    (hscore : ¬ rep.score < REPUTATION_THRESHOLD)
    (hadm : ¬ tweet.author_id = some ADMIN_ID)
    (hsome : mem.has_successful_mint tweet.author_id (some address) = .ok (some t)) :
    process_tweet env tweet mem
      = { ret := .ok true
          mem := mem.add_mention tweet.id tweet.text "duplicate_request" false none none none
            none tweet.author_username tweet.author_id
            (env.sendErrorReply tweet.id "already_minted")
          mintInvoked := false
          replies := 1 } := by
  have h1 : ¬ (tweet.text = [] ∨ tweet.id = "") := by
    push_neg
    exact ⟨htext, hid⟩
  simp [process_tweet, h1, hfresh, hex, get_eth_balance, hbal, hbpos, hrep, hscore, hadm, hsome]

/-- Admin mint request whose tweet carries no username, producing a
successful ledger entry with `author = None`. -/
def adminTweetNoName : Tweet :=
  { id := "3", text := ["@XoninNFT", "mint", hexLit], author_username := none,
    author_id := some ADMIN_ID }

/-- The ledger after the authorless admin mint. -/
def memAuthorless : Memory := (process_tweet envOK adminTweetNoName memEmpty).mem

/-- C7 counterexample: a reachable ledger with an authorless successful entry
whose minted address matches the incoming mention.  A matching prior mint
exists, yet the pipeline does not yield duplicate-request — the duplicate
check raises AttributeError on the authorless entry, so the mention is
neither ledgered nor replied to, and no wallet call is made. -/
theorem authorlessEntryCrashesDupCheck :
    Reachable memAuthorless ∧
    (∃ p ∈ memAuthorless.mentions, priorMintMatch p.2 (some "42") hexLit = true) ∧
    process_tweet envOK tweetBob memAuthorless
      = { ret := .error .attributeError, mem := memAuthorless, mintInvoked := false,
          replies := 0 } :=
  ⟨Reachable.stepTweet envOK adminTweetNoName _ Reachable.init, by decide, by decide⟩

/-- C7 (amended): for a mention that passes the earlier admission stages with
a recorded author id, (i) an admin-authored mention always proceeds to the
mint (the wallet is invoked, never a duplicate rejection); (ii) for a
non-admin author, provided every successful ledger entry records its author,
the pipeline yields the duplicate_request outcome with no wallet invocation
exactly when some successful entry matches the author id or the resolved
address case-insensitively.  (When a successful entry lacks its author
record, the duplicate check instead raises AttributeError, as the
counterexample shows.) -/
theorem duplicateCheckExactness (env : Env) (tweet : Tweet) (mem : Memory)
    (address : String) (domain tagged : Option String) (b : ℚ) (rep : Reputation) (aid : String)
    (htext : ¬ tweet.text = []) (hid : ¬ tweet.id = "")
    (hfresh : mem.is_processed tweet.id = false)
    (hex : is_valid_mint_request_with_feedback env tweet.text
      = (some address, domain, some "valid", tagged))
    (hbal : env.getEthBalance address = some b) (hbpos : b > 0)
    (hrep : check_reputation env address = some rep)
    (hscore : ¬ rep.score < REPUTATION_THRESHOLD)
    (haid : tweet.author_id = some aid) :
    (aid = ADMIN_ID → (process_tweet env tweet mem).mintInvoked = true) ∧
    (¬ aid = ADMIN_ID → AuthorsRecorded mem →
      ((process_tweet env tweet mem
          = { ret := .ok true
              mem := mem.add_mention tweet.id tweet.text "duplicate_request" false none none
                none none tweet.author_username tweet.author_id
                (env.sendErrorReply tweet.id "already_minted")
              mintInvoked := false
              replies := 1 })
        ↔ ∃ p ∈ mem.mentions, priorMintMatch p.2 (some aid) address = true)) := by
  constructor
  · intro hadmin
    have hpt := process_tweet_reaches_mint env tweet mem address domain tagged b rep htext hid
      hfresh hex hbal hbpos hrep hscore (Or.inl (by rw [haid, hadmin]))
    rw [hpt]
    exact mintBranch_invoked env tweet mem address domain
  · intro hadmin hwf
    have hadm : ¬ tweet.author_id = some ADMIN_ID := by
      rw [haid]
      intro hc
      exact hadmin (by injection hc)
    constructor
    · intro hout
      rw [← haid]
      rw [← hsmScan_wf_some_iff tweet.author_id address mem.mentions hwf]
      rcases hres : mem.has_successful_mint tweet.author_id (some address) with e | r
      · exact absurd hres (hsmScan_wf_not_error tweet.author_id (some address) mem.mentions hwf e)
      · rcases r with _ | t
        · exfalso
          have hpt := process_tweet_reaches_mint env tweet mem address domain tagged b rep htext
            hid hfresh hex hbal hbpos hrep hscore (Or.inr hres)
          rw [hpt] at hout
          have := congrArg PTOut.mintInvoked hout
          rw [mintBranch_invoked env tweet mem address domain] at this
          simp at this
        · exact ⟨t, hres⟩
    · intro hmatch
      rw [← haid] at hmatch
      obtain ⟨t, ht⟩ := (hsmScan_wf_some_iff tweet.author_id address mem.mentions hwf).mpr hmatch
      exact process_tweet_dup env tweet mem address domain tagged b rep t htext hid hfresh hex
        hbal hbpos hrep hscore hadm ht

/-- A ledger holding one successful non-admin mint for `hexLit`. -/
def memPrior : Memory :=
  { mentions := [("1", mkMention ["@XoninNFT", "m", hexLit] "processed" true (some "0xdeadbeef")
      (some hexLit) none (some "Xonin 7") (some "carol") (some "77") (some "999"))],
    last_tweet_id := none }

theorem duplicateCheckExactnessWitness :
    process_tweet envOK tweetBob memPrior
      = { ret := .ok true
          mem := memPrior.add_mention "10" tweetBob.text "duplicate_request" false none none
            none none (some "bob") (some "42") (envOK.sendErrorReply "10" "already_minted")
          mintInvoked := false
          replies := 1 } :=
  ((duplicateCheckExactness envOK tweetBob memPrior hexLit none none 1 { score := 50 } "42"
      (by decide) (by decide) (by decide) (by decide) (by decide) (by decide) (by decide)
      (by decide) (by decide)).2 (by decide) (by decide)).mpr (by decide)

theorem digitChar_spec : ∀ d, d < 10 →
    (Nat.digitChar d).isDigit = true ∧ (Nat.digitChar d).toNat - '0'.toNat = d := by
  decide

theorem toDigitsCore_parse : ∀ fuel n, 0 < fuel → n < 10 ^ fuel →
    ∃ E, 0 < E ∧ ∀ ds acc,
      parseDecDigits (Nat.toDigitsCore 10 fuel n ds) acc
        = parseDecDigits ds (acc * 10 ^ E + n) := by
  intro fuel
  induction fuel with
  | zero => intro n h0 _; omega
  | succ f ih =>
    intro n _ hn
    have hred : ∀ ds, Nat.toDigitsCore 10 (f + 1) n ds
        = if n / 10 = 0 then Nat.digitChar (n % 10) :: ds
          else Nat.toDigitsCore 10 f (n / 10) (Nat.digitChar (n % 10) :: ds) :=
      fun ds => rfl
    have hd : n % 10 < 10 := by omega
    obtain ⟨h1, h2⟩ := digitChar_spec (n % 10) hd
    by_cases hdiv : n / 10 = 0
    · refine ⟨1, by omega, ?_⟩
      intro ds acc
      rw [hred ds, if_pos hdiv]
      simp only [parseDecDigits, h1, if_true, h2]
      congr 1
      rw [pow_one]
      omega
    · have hf0 : 0 < f := by
        rcases Nat.eq_zero_or_pos f with h | h
        · subst h
          rw [pow_one] at hn
          omega
        · exact h
      have hn10 : n / 10 < 10 ^ f := by
        have hsucc : n < 10 ^ f * 10 := by
          rw [← pow_succ]
          exact hn
        omega
      obtain ⟨E, hE0, hE⟩ := ih (n / 10) hf0 hn10
      refine ⟨E + 1, by omega, ?_⟩
      intro ds acc
      rw [hred ds, if_neg hdiv, hE (Nat.digitChar (n % 10) :: ds) acc]
      simp only [parseDecDigits, h1, if_true, h2]
      congr 1
      rw [pow_succ]
      have hr : (acc * 10 ^ E + n / 10) * 10 + n % 10
          = acc * (10 ^ E * 10) + (n / 10 * 10 + n % 10) := by ring
      rw [hr]
      omega

theorem toDigitsCore_ne_nil : ∀ fuel n ds, (0 < fuel ∨ ¬ ds = []) →
    ¬ Nat.toDigitsCore 10 fuel n ds = [] := by
  intro fuel
  induction fuel with
  | zero =>
    intro n ds h
    rcases h with h | h
    · omega
    · exact h
  | succ f ih =>
    intro n ds _
    have hred : Nat.toDigitsCore 10 (f + 1) n ds
        = if n / 10 = 0 then Nat.digitChar (n % 10) :: ds
          else Nat.toDigitsCore 10 f (n / 10) (Nat.digitChar (n % 10) :: ds) := rfl
    rw [hred]
    by_cases hdiv : n / 10 = 0
    · rw [if_pos hdiv]
      simp
    · rw [if_neg hdiv]
      exact ih (n / 10) _ (Or.inr (by simp))

theorem parseDecNat_toString (n : Nat) : parseDecNat (toString n) = some n := by
  have h10 : n < 10 ^ (n + 1) := by
    calc n < 10 ^ n := Nat.lt_pow_self (by omega) n
    _ ≤ 10 ^ (n + 1) := Nat.pow_le_pow_right (by omega) (by omega)
  obtain ⟨E, _, hE⟩ := toDigitsCore_parse (n + 1) n (by omega) h10
  have hne := toDigitsCore_ne_nil (n + 1) n [] (Or.inl (by omega))
  have hparse : parseDecDigits (Nat.toDigitsCore 10 (n + 1) n []) 0 = some n := by
    rw [hE [] 0]
    simp [parseDecDigits]
  unfold parseDecNat
  have hl : (toString n).toList = Nat.toDigitsCore 10 (n + 1) n [] := rfl
  rw [hl]
  rcases hlist : Nat.toDigitsCore 10 (n + 1) n [] with _ | ⟨c, rest⟩
  · exact absurd hlist hne
  · rw [hlist] at hparse
    exact hparse

theorem toString_ne_empty (n : Nat) : ¬ toString n = "" := by
  intro h
  have hl := congrArg String.toList h
  have hl2 : Nat.toDigitsCore 10 (n + 1) n [] = [] := hl
  exact toDigitsCore_ne_nil (n + 1) n [] (Or.inl (by omega)) hl2

/-- The checkpoint as the batch loop compares it: `None` when unset or falsy,
otherwise the integer value of the stored id string. -/
def ckptNum (mem : Memory) : Option Nat :=
  match mem.last_tweet_id with
  | none => none
  | some s => if s = "" then none else parseDecNat s

/-- Join of optional maxima. -/
def optMax : Option Nat → Option Nat → Option Nat
  | none, b => b
  | some a, none => some a
  | some a, some b => some (Nat.max a b)

/-- The numeric maximum of a batch's tweet ids (None for an empty batch or
unparseable ids, which make the update raise instead). -/
def batchMaxIds (tweets : List Tweet) : Option Nat :=
  match tweets with
  | [] => none
  | _ => (mapParseIds tweets).map listMax

/-- States of the polling loop: the current memory paired with the maximum
mention id observed so far, starting from an arbitrary persisted state and
advancing one completed (exception-free) batch at a time. -/
inductive BatchReach : Memory → Option Nat → Prop
  | start (mem : Memory) : BatchReach mem (ckptNum mem)
  | step (env : Env) (tweets : List Tweet) (mem : Memory) (obs : Option Nat) (mem' : Memory) :
      BatchReach mem obs → runBatch env tweets mem = (mem', true) →
      BatchReach mem' (optMax obs (batchMaxIds tweets))

theorem optMax_none_right : ∀ x : Option Nat, optMax x none = x := by
  intro x
  cases x <;> rfl

theorem ckptNum_congr (m1 m2 : Memory) (h : m1.last_tweet_id = m2.last_tweet_id) :
    ckptNum m1 = ckptNum m2 := by
  unfold ckptNum
  rw [h]

/-- A successful checkpoint update moves the stored checkpoint to the join of
the old checkpoint and the batch maximum. -/
theorem update_last_ckpt (m : Memory) (tweets : List Tweet) (m' : Memory)
    (h : m.update_last_tweet_id tweets = .ok m') :
    ckptNum m' = optMax (ckptNum m) (batchMaxIds tweets) := by
  cases tweets with
  | nil =>
    unfold Memory.update_last_tweet_id at h
    injection h with h
    subst h
    rw [show batchMaxIds [] = none from rfl, optMax_none_right]
  | cons t0 ts =>
    rcases hids : mapParseIds (t0 :: ts) with _ | ids
    · simp [Memory.update_last_tweet_id, hids] at h
    · have hbm : batchMaxIds (t0 :: ts) = some (listMax ids) := by
        simp [batchMaxIds, hids]
      rw [hbm]
      rcases hlast : m.last_tweet_id with _ | s
      · simp only [Memory.update_last_tweet_id, hids, hlast] at h
        injection h with h
        subst h
        simp [ckptNum, hlast, toString_ne_empty, parseDecNat_toString, optMax]
      · by_cases hse : s = ""
        · subst hse
          simp only [Memory.update_last_tweet_id, hids, hlast, if_pos rfl] at h
          injection h with h
          subst h
          simp [ckptNum, hlast, toString_ne_empty, parseDecNat_toString, optMax]
        · rcases hold : parseDecNat s with _ | old
          · simp [Memory.update_last_tweet_id, hids, hlast, hse, hold] at h
          · by_cases hgt : listMax ids > old
            · simp only [Memory.update_last_tweet_id, hids, hlast, hse, if_neg hse, hold,
                if_pos hgt] at h
              injection h with h
              subst h
              simp only [ckptNum, hlast, if_neg hse, hold, optMax,
                if_neg (toString_ne_empty (listMax ids)), parseDecNat_toString]
              exact congrArg some (Nat.max_eq_right (by omega)).symm
            · simp only [Memory.update_last_tweet_id, hids, hlast, hse, if_neg hse, hold,
                if_neg hgt] at h
              injection h with h
              subst h
              simp only [ckptNum, hlast, if_neg hse, hold, optMax]
              exact congrArg some (Nat.max_eq_left (by omega)).symm

theorem process_tweet_last (env : Env) (t : Tweet) (mem : Memory) :
    (process_tweet env t mem).mem.last_tweet_id = mem.last_tweet_id := by
  rcases process_tweet_shape env t mem with hsame | ⟨e, _, _, hlast, _⟩
  · rw [hsame]
  · exact hlast

theorem processBatch_last (env : Env) :
    ∀ ts mem, (processBatch env ts mem).1.last_tweet_id = mem.last_tweet_id := by
  intro ts
  induction ts with
  | nil => intro mem; rfl
  | cons t ts ih =>
    intro mem
    unfold processBatch
    split
    · rw [ih (process_tweet env t mem).mem]
      exact process_tweet_last env t mem
    · exact process_tweet_last env t mem

theorem runBatch_true (env : Env) (tweets : List Tweet) (mem mem' : Memory)
    (h : runBatch env tweets mem = (mem', true)) :
    ∃ mem1, processBatch env tweets mem = (mem1, true) ∧
      mem1.update_last_tweet_id tweets = .ok mem' := by
  unfold runBatch at h
  split at h
  · next mem1 hpb =>
      split at h
      · next mem2 hupd =>
          injection h with h1 h2
          subst h1
          exact ⟨mem1, hpb, hupd⟩
      · injection h with h1 h2
        simp at h2
  · next mem1 hpb =>
      injection h with h1 h2
      simp at h2

theorem runBatch_monotone (env : Env) (tweets : List Tweet) (mem mem' : Memory) (d : Bool)
    (h : runBatch env tweets mem = (mem', d)) (n : Nat) (hn : ckptNum mem = some n) :
    ∃ n', ckptNum mem' = some n' ∧ n ≤ n' := by
  unfold runBatch at h
  split at h
  · next mem1 hpb =>
      have hl : ckptNum mem1 = some n := by
        have hfst : (processBatch env tweets mem).1 = mem1 := by rw [hpb]
        rw [ckptNum_congr mem1 mem (by rw [← hfst]; exact processBatch_last env tweets mem)]
        exact hn
      split at h
      · next mem2 hupd =>
          injection h with h1 _
          subst h1
          have hck := update_last_ckpt mem1 tweets mem2 hupd
          rw [hl] at hck
          rcases hX : batchMaxIds tweets with _ | b
          · rw [hX] at hck
            exact ⟨n, by rw [hck]; rfl, le_refl n⟩
          · rw [hX] at hck
            exact ⟨Nat.max n b, by rw [hck]; rfl, Nat.le_max_left n b⟩
      · injection h with h1 _
        subst h1
        exact ⟨n, hl, le_refl n⟩
  · next mem1 hpb =>
      injection h with h1 _
      subst h1
      have hfst : (processBatch env tweets mem).1 = mem1 := by rw [hpb]
      refine ⟨n, ?_, le_refl n⟩
      rw [ckptNum_congr mem1 mem (by rw [← hfst]; exact processBatch_last env tweets mem)]
      exact hn

theorem process_tweet_not_request (env : Env) (t : Tweet) (mem : Memory)
    (h : (is_valid_mint_request_with_feedback env t.text).1 = none) :
    (process_tweet env t mem).mem = mem := by
  unfold process_tweet
  split
  · rfl
  · split
    · rfl
    · split
      · rfl
      · next address domain status tagged heq =>
          rw [heq] at h
          simp at h

/-- C8: across successive completed batches, the stored checkpoint equals the
join of the initial checkpoint with the maximum id of every batch fetched so
far; a batch (completed or aborted) never decreases it; and a mention whose
extraction yields no request leaves the ledger untouched even though its id
still enters the batch maximum that advances the checkpoint. -/
theorem checkpointMonotoneEqualsMax :
    (∀ mem obs, BatchReach mem obs → ckptNum mem = obs) ∧
    (∀ env tweets mem mem' d, runBatch env tweets mem = (mem', d) →
      ∀ n, ckptNum mem = some n → ∃ n', ckptNum mem' = some n' ∧ n ≤ n') ∧
    (∀ env t mem, (is_valid_mint_request_with_feedback env t.text).1 = none →
      (process_tweet env t mem).mem = mem) := by
  refine ⟨?_, ?_, ?_⟩
  · intro mem obs h
    induction h with
    | start mem => rfl
    | step env tweets mem obs mem' hr hrb ih =>
      obtain ⟨mem1, hpb, hupd⟩ := runBatch_true env tweets mem mem' hrb
      have h1 : ckptNum mem1 = obs := by
        have hfst : (processBatch env tweets mem).1 = mem1 := by rw [hpb]
        rw [ckptNum_congr mem1 mem (by rw [← hfst]; exact processBatch_last env tweets mem)]
        exact ih
      rw [update_last_ckpt mem1 tweets mem' hupd, h1]
  · exact runBatch_monotone
  · exact process_tweet_not_request

/-- A mention with no address and no name literal. -/
def tweetNR : Tweet :=
  { id := "5", text := ["hello", "world"], author_username := some "dan",
    author_id := some "8" }

theorem checkpointMonotoneEqualsMaxWitness :
    ckptNum (runBatch envOK [tweetNR] memEmpty).1
      = optMax (ckptNum memEmpty) (batchMaxIds [tweetNR]) :=
  checkpointMonotoneEqualsMax.1 (runBatch envOK [tweetNR] memEmpty).1
    (optMax (ckptNum memEmpty) (batchMaxIds [tweetNR]))
    (BatchReach.step envOK [tweetNR] memEmpty (ckptNum memEmpty)
      (runBatch envOK [tweetNR] memEmpty).1 (BatchReach.start memEmpty) (by decide))

/-- The message text, after stripping, for a mention whose .eth name occurs
before its 0x address. -/
def msgEthFirst : List Char := joinWords ["fren.eth", "or", hexLit]

/-- C9 counterexample: in "fren.eth or 0xaaa…a" the .eth name occurs at
position 0 and the 0x address at position 12, yet the extraction returns the
0x address as the mint target (the 0x pattern is searched first, regardless
of position).  And in "@XoninNFT @alice mint 0xaaa…a" the leading "@alice"
is a non-self handle, yet it is stripped with the rest of the leading
mentions and the tagged user comes back None instead of "alice". -/
theorem hexBeatsEarlierEthName :
    (∃ pe le, searchEth msgEthFirst = some (pe, le) ∧ pe = 0 ∧ String.mk le = "fren.eth") ∧
    searchHex msgEthFirst = some (12, hexLit.toList) ∧
    is_valid_mint_request_with_feedback envOK ["@XoninNFT", "fren.eth", "or", hexLit]
      = (some hexLit, none, some "valid", none) ∧
    is_valid_mint_request_with_feedback envOK ["@XoninNFT", "@alice", "mint", hexLit]
      = (some hexLit, none, some "valid", none) := by
  refine ⟨⟨0, "fren.eth".toList, by decide, rfl, by decide⟩, by decide, by decide, by decide⟩

theorem dropWhile_append_of_all (p : String → Bool) (ws ms : List String)
    (h : ∀ w ∈ ws, p w = true) : (ws ++ ms).dropWhile p = ms.dropWhile p := by
  induction ws with
  | nil => rfl
  | cons w ws ih =>
    simp only [List.cons_append, List.dropWhile_cons, h w (by simp), if_true]
    exact ih (fun x hx => h x (by simp [hx]))

theorem occurs_eth_false (l : List Char) (h : ∀ c ∈ l, ¬ c = '.') :
    occurs ['.', 'e', 't', 'h'] l = false := by
  induction l with
  | nil => rfl
  | cons c rest ih =>
    have hc : ¬ c = '.' := h c (by simp)
    have hbc : ('.' == c) = false := by
      rw [beq_eq_false_iff_ne]
      exact fun hq => hc hq.symm
    unfold occurs
    rw [show beginsWith ['.', 'e', 't', 'h'] (c :: rest)
        = (('.' == c) && beginsWith ['e', 't', 'h'] rest) from rfl]
    rw [hbc, Bool.false_and, Bool.false_or]
    exact ih (fun x hx => h x (by simp [hx]))

theorem hexAt_no_dot (s m : List Char) (h : hexAt s = some m) : ∀ c ∈ m, ¬ c = '.' := by
  unfold hexAt at h
  split at h
  · next rest =>
      split at h
      · next hcond =>
          injection h with h
          subst h
          intro c hc
          simp only [List.mem_cons] at hc
          rcases hc with hc | hc | hc
          · subst hc; decide
          · subst hc; decide
          · have hall := hcond.2
            rw [List.all_eq_true] at hall
            have := hall c hc
            intro hdot
            subst hdot
            simp [isHexChar] at this
      · simp at h
  · simp at h

theorem searchHexFrom_no_dot :
    ∀ s i p lit, searchHexFrom s i = some (p, lit) → ∀ c ∈ lit, ¬ c = '.' := by
  intro s
  induction s with
  | nil => intro i p lit h; simp [searchHexFrom] at h
  | cons c0 rest ih =>
    intro i p lit h
    unfold searchHexFrom at h
    split at h
    · next m hm =>
        simp only [Option.some.injEq, Prod.mk.injEq] at h
        obtain ⟨_, h2⟩ := h
        subst h2
        exact hexAt_no_dot (c0 :: rest) m hm
    · exact ih (i + 1) p lit h

/-- C9 (amended): extraction drops every leading '@'-token regardless of
which handle it addresses (prepending such tokens never changes the result);
the mint target is the first 0x-address match whenever one exists anywhere in
the remaining text, with no name resolution (domain None), even if a .eth
name occurs earlier; only when no 0x address matches is the first .eth match
handled (resolution and validation); and when neither pattern matches the
mention is not-a-request, carrying only the tagged user. -/
theorem extractionAmended :
    (∀ (env : Env) (ws ms : List String), (∀ w ∈ ws, startsWithAt w = true) →
      is_valid_mint_request_with_feedback env (ws ++ ms)
        = is_valid_mint_request_with_feedback env ms) ∧
    (∀ (env : Env) (ws : List String) (p : Nat) (lit : List Char),
      searchHex (joinWords (ws.dropWhile (fun w => startsWithAt w))) = some (p, lit) →
      (is_valid_mint_request_with_feedback env ws).1 = some (String.mk lit) ∧
      (is_valid_mint_request_with_feedback env ws).2.1 = none) ∧
    (∀ (env : Env) (ws : List String) (p : Nat) (lit : List Char),
      searchHex (joinWords (ws.dropWhile (fun w => startsWithAt w))) = none →
      searchEth (joinWords (ws.dropWhile (fun w => startsWithAt w))) = some (p, lit) →
      is_valid_mint_request_with_feedback env ws
        = handleLiteral env (String.mk lit)
            (findTagged (joinWords (ws.dropWhile (fun w => startsWithAt w))))) ∧
    (∀ (env : Env) (ws : List String),
      searchHex (joinWords (ws.dropWhile (fun w => startsWithAt w))) = none →
      searchEth (joinWords (ws.dropWhile (fun w => startsWithAt w))) = none →
      is_valid_mint_request_with_feedback env ws
        = (none, none, none,
            findTagged (joinWords (ws.dropWhile (fun w => startsWithAt w))))) := by
  refine ⟨?_, ?_, ?_, ?_⟩
  · intro env ws ms hws
    unfold is_valid_mint_request_with_feedback
    rw [dropWhile_append_of_all (fun w => startsWithAt w) ws ms hws]
  · intro env ws p lit hhex
    have hnd : ∀ c ∈ lit, ¬ c = '.' := searchHexFrom_no_dot _ 0 p lit hhex
    have hocc : occurs ['.', 'e', 't', 'h'] (String.mk lit).toList = false :=
      occurs_eth_false lit hnd
    simp only [is_valid_mint_request_with_feedback, hhex]
    unfold handleLiteral
    rw [if_neg (by rw [hocc]; exact fun hq => nomatch hq)]
    by_cases hia : env.isAddress (String.mk lit) = true
    · rw [if_pos hia]
      exact ⟨rfl, rfl⟩
    · rw [if_neg hia]
      exact ⟨rfl, rfl⟩
  · intro env ws p lit hhex heth
    simp only [is_valid_mint_request_with_feedback, hhex, heth]
  · intro env ws hhex heth
    simp only [is_valid_mint_request_with_feedback, hhex, heth]

theorem extractionAmendedWitness :
    is_valid_mint_request_with_feedback envOK (["@XoninNFT"] ++ ["send", hexLit])
      = is_valid_mint_request_with_feedback envOK ["send", hexLit] :=
  extractionAmended.1 envOK ["@XoninNFT"] ["send", hexLit] (by decide)

end Xonin
